import Mathlib

/-!
Shallow embedding of the FreedomNode `freedom_core` Rust crate
(`src/native/freedom_core/src/{protocol/{header,packet},crypto/{handshake,identity,helper},ffi}.rs`)
together with theorems settling the frozen specification claims.

Bytes are modelled as `Nat` values (with `< 256` bounds carried as hypotheses
where relevant), byte buffers as `List Nat`, machine integers as `Nat` with
explicit `% 2 ^ w` where the Rust source performs a narrowing conversion.
Fallible Rust functions returning `Result` are modelled with `Except`.
-/

set_option maxRecDepth 100000

namespace FreedomCore

/-! ### Byte-string helpers

`beBytes w n` is the big-endian `w`-byte encoding of `n` (modelling
`u32::to_be_bytes` / `u64::to_be_bytes` with `w = 4` / `w = 8`), and `beNum`
is the inverse fold (modelling `u32::from_be_bytes` / `u64::from_be_bytes`).
`leNum` reads a little-endian byte string as a number, as the dalek crates do
for field elements and scalars; `leBytes` is its inverse. -/

def beBytes : Nat → Nat → List Nat
  | 0, _ => []
  | w + 1, n => beBytes w (n / 256) ++ [n % 256]

def beNum (l : List Nat) : Nat :=
  l.foldl (fun acc b => acc * 256 + b) 0

def leBytes : Nat → Nat → List Nat
  | 0, _ => []
  | w + 1, n => n % 256 :: leBytes w (n / 256)

def leNum (l : List Nat) : Nat :=
  l.foldr (fun b acc => acc * 256 + b) 0

/-! ### CRC-32 (IEEE), as computed by the `crc32fast` crate

The reflected bitwise algorithm: state starts at `0xFFFFFFFF`, each input byte
is xor-ed into the low bits, followed by eight shift/conditional-xor steps with
the reversed polynomial `0xEDB88320`; the final state is xor-ed with
`0xFFFFFFFF`. -/

def crcPoly : Nat := 0xEDB88320

def crcBitStep (s : Nat) : Nat :=
  if s % 2 = 1 then (s / 2) ^^^ crcPoly else s / 2

def crcByteStep (s b : Nat) : Nat :=
  crcBitStep^[8] (s ^^^ b)

def crc32 (data : List Nat) : Nat :=
  (data.foldl crcByteStep 0xFFFFFFFF) ^^^ 0xFFFFFFFF

/-! ### `protocol/header.rs` -/

def HEADER_SIZE : Nat := 16

inductive MessageType where
  | Handshake
  | Onion
  | DhtFindNode
  | DhtFindNodeRes
  | Store
  | StoreRes
  | Fetch
  | FetchRes
  | Put
  | GetValueReq
  | GetValueRes
  | Unknown
deriving DecidableEq, Repr

/-- The `#[repr(u8)]` discriminant of each `MessageType` variant (the value of
`self.message_type as u8`). -/
def MessageType.toByte : MessageType → Nat
  | .Handshake => 0x01
  | .Onion => 0x02
  | .DhtFindNode => 0x03
  | .DhtFindNodeRes => 0x04
  | .Store => 0x05
  | .StoreRes => 0x06
  | .Fetch => 0x07
  | .FetchRes => 0x08
  | .Put => 0x0A
  | .GetValueReq => 0x0B
  | .GetValueRes => 0x0C
  | .Unknown => 0xFF

/-- `impl From<u8> for MessageType`. -/
def MessageType.fromByte (value : Nat) : MessageType :=
  if value = 0x01 then .Handshake
  else if value = 0x02 then .Onion
  else if value = 0x03 then .DhtFindNode
  else if value = 0x04 then .DhtFindNodeRes
  else if value = 0x05 then .Store
  else if value = 0x06 then .StoreRes
  else if value = 0x07 then .Fetch
  else if value = 0x08 then .FetchRes
  else if value = 0x0A then .Put
  else if value = 0x0B then .GetValueReq
  else if value = 0x0C then .GetValueRes
  else .Unknown

structure FixedHeader where
  version : Nat
  flags : Nat
  message_type : MessageType
  reserved : Nat
  request_id : Nat
  payload_length : Nat
  checksum : Nat
deriving DecidableEq, Repr

inductive HeaderError where
  | BufferTooSmall
  | ChecksumMismatch (expected computed : Nat)
deriving DecidableEq, Repr

/-- `FixedHeader::new`: note that the Rust constructor ignores no argument but
hard-codes `reserved: 0`. -/
def FixedHeader.new (version flags : Nat) (message_type : MessageType)
    (request_id payload_length checksum : Nat) : FixedHeader :=
  { version := version
    flags := flags
    message_type := message_type
    reserved := 0
    request_id := request_id
    payload_length := payload_length
    checksum := checksum }

/-- `FixedHeader::create`: version 1, flags 0, CRC-32 checksum of the payload,
and `payload.len() as u32` (a narrowing cast, hence the `% 2 ^ 32`). -/
def FixedHeader.create (message_type : MessageType) (request_id : Nat)
    (payload : List Nat) : FixedHeader :=
  FixedHeader.new 1 0 message_type request_id (payload.length % 2 ^ 32) (crc32 payload)

/-- `FixedHeader::to_bytes`: 16 bytes, big-endian multi-byte fields. -/
def FixedHeader.to_bytes (h : FixedHeader) : List Nat :=
  [h.version, h.flags, h.message_type.toByte, h.reserved]
    ++ (beBytes 4 h.request_id ++ (beBytes 4 h.payload_length ++ beBytes 4 h.checksum))

/-- The header record read (unconditionally) from the first 16 bytes of a
buffer: the field extraction part of `FixedHeader::from_bytes`.  The in-bounds
accesses `bytes[i]` performed by the Rust code after its length check are
modelled with `List.getD`; `u32::from_be_bytes(bytes[a..b].try_into())` is
`beNum ((bytes.drop a).take 4)`. -/
def parseHeader (bytes : List Nat) : FixedHeader :=
  { version := bytes.getD 0 0
    flags := bytes.getD 1 0
    message_type := MessageType.fromByte (bytes.getD 2 0)
    reserved := bytes.getD 3 0
    request_id := beNum ((bytes.drop 4).take 4)
    payload_length := beNum ((bytes.drop 8).take 4)
    checksum := beNum ((bytes.drop 12).take 4) }

/-- `FixedHeader::from_bytes`. -/
def FixedHeader.from_bytes (bytes : List Nat) : Except HeaderError FixedHeader :=
  if bytes.length < HEADER_SIZE then .error .BufferTooSmall
  else .ok (parseHeader bytes)

/-- Representability of a `FixedHeader`'s fields in the Rust field types
(`u8` / `u32`) — automatic in Rust, a domain condition of the `Nat` model. -/
def FixedHeader.Valid (h : FixedHeader) : Prop :=
  h.version < 256 ∧ h.flags < 256 ∧ h.reserved < 256 ∧
    h.request_id < 2 ^ 32 ∧ h.payload_length < 2 ^ 32 ∧ h.checksum < 2 ^ 32

instance (h : FixedHeader) : Decidable h.Valid := by
  unfold FixedHeader.Valid; infer_instance

/-! ### `protocol/packet.rs` -/

inductive PacketError where
  | HeaderError (e : HeaderError)
  | PayloadLengthMismatch (expected got : Nat)
  | ChecksumMismatch (expected calculated : Nat)
deriving DecidableEq, Repr

structure NetworkPacket where
  header : FixedHeader
  payload : List Nat
deriving DecidableEq, Repr

/-- `NetworkPacket::new`. -/
def NetworkPacket.new (message_type : MessageType) (request_id : Nat)
    (payload : List Nat) : NetworkPacket :=
  { header := FixedHeader.create message_type request_id payload
    payload := payload }

/-- `NetworkPacket::to_bytes`: header bytes followed by the payload. -/
def NetworkPacket.to_bytes (p : NetworkPacket) : List Nat :=
  p.header.to_bytes ++ p.payload

/-- `NetworkPacket::from_bytes`. -/
def NetworkPacket.from_bytes (data : List Nat) : Except PacketError NetworkPacket :=
  if data.length < HEADER_SIZE then .error (.HeaderError .BufferTooSmall)
  else
    match FixedHeader.from_bytes (data.take HEADER_SIZE) with
    | .error e => .error (.HeaderError e)
    | .ok header =>
      let payload_len := header.payload_length
      if data.length < HEADER_SIZE + payload_len then
        .error (.PayloadLengthMismatch payload_len (data.length - HEADER_SIZE))
      else
        let payload := (data.drop HEADER_SIZE).take payload_len
        let calculated_crc := crc32 payload
        if calculated_crc ≠ header.checksum then
          .error (.ChecksumMismatch header.checksum calculated_crc)
        else .ok { header := header, payload := payload }

/-- The `payload_length` declared by the header region of a raw buffer. -/
def declaredPayloadLen (data : List Nat) : Nat :=
  (parseHeader (data.take HEADER_SIZE)).payload_length

/-- The checksum stored in the header region of a raw buffer. -/
def storedChecksum (data : List Nat) : Nat :=
  (parseHeader (data.take HEADER_SIZE)).checksum

/-- The payload slice `data[16 .. 16 + declared length]` extracted by
`NetworkPacket::from_bytes`. -/
def extractedPayload (data : List Nat) : List Nat :=
  (data.drop HEADER_SIZE).take (declaredPayloadLen data)

/-! ### `crypto/handshake.rs`

The handshake codec parses dalek key/signature types out of a fixed 136-byte
buffer.  `ed25519_dalek::VerifyingKey::from_bytes` succeeds exactly when the
32 input bytes decompress to a point of the Edwards curve
`-x^2 + y^2 = 1 + d x^2 y^2` over `GF(2^255 - 19)`: the low 255 bits are read
little-endian as the `y` coordinate (reduced mod `p`), and decompression
succeeds iff `(y^2 - 1) / (d y^2 + 1)` is a square, which `ed25519ValidPoint`
decides by Euler's criterion (computed with the fast modular exponentiation
`powMod`).  `ed25519_dalek::Signature::from_bytes` (v2) and
`x25519_dalek::PublicKey::from` are total: any 64/32 bytes are accepted. -/

def p25519 : Nat := 2 ^ 255 - 19

def edD : Nat :=
  37095705934669439343138083508754565189542113879843219016388785533085940283555

/-- Fuel-driven fast modular exponentiation (square and multiply); the fuel is
consumed once per halving of the exponent, so `e + 1` always suffices. -/
def powModAux : Nat → Nat → Nat → Nat → Nat
  | 0, _, _, m => 1 % m
  | fuel + 1, b, e, m =>
    if e = 0 then 1 % m
    else
      let r := powModAux fuel (b * b % m) (e / 2) m
      if e % 2 = 1 then r * b % m else r

def powMod (b e m : Nat) : Nat :=
  powModAux (e + 1) (b % m) e m

/-- Whether 32 bytes are a valid compressed Edwards point (the success
condition of `ed25519_dalek::VerifyingKey::from_bytes`): the decompression
candidate `u / v` with `u = y^2 - 1`, `v = d y^2 + 1` must be a square mod
`p25519`, decided by Euler's criterion (with `u = 0` always a square). -/
def ed25519ValidPoint (bytes : List Nat) : Bool :=
  let y := leNum bytes % 2 ^ 255 % p25519
  let u := (y * y + (p25519 - 1)) % p25519
  let v := (edD * (y * y) + 1) % p25519
  u == 0 || powMod (u * powMod v (p25519 - 2) p25519) ((p25519 - 1) / 2) p25519 == 1

def HANDSHAKE_PAYLOAD_SIZE : Nat := 136

/-- The dalek key and signature types are carried as their byte encodings
(`VerifyingKey::as_bytes`, `PublicKey::as_bytes`, `Signature::to_bytes` all
return exactly the bytes the values were built from). -/
structure HandshakePayload where
  identity_key : List Nat
  onion_key : List Nat
  timestamp : Nat
  signature : List Nat
deriving DecidableEq, Repr

inductive HandshakeError where
  | InvalidSize (expected got : Nat)
  | InvalidIdentityKey
  | InvalidOnionKey
  | InvalidSignature
  | VerificationFailed
deriving DecidableEq, Repr

/-- Validity of a `HandshakePayload` value: the byte fields have the sizes the
Rust types fix (`[u8; 32]` / `[u8; 64]`), the timestamp is a `u64`, and the
identity key is a decodable compressed Edwards point (every
`ed25519_dalek::VerifyingKey` satisfies this by construction). -/
def HandshakePayload.Valid (v : HandshakePayload) : Prop :=
  v.identity_key.length = 32 ∧ v.onion_key.length = 32 ∧ v.signature.length = 64 ∧
    v.timestamp < 2 ^ 64 ∧ ed25519ValidPoint v.identity_key = true

instance (v : HandshakePayload) : Decidable v.Valid := by
  unfold HandshakePayload.Valid; infer_instance

/-- `HandshakePayload::to_bytes`:
`[identity_key (32) | onion_key (32) | timestamp (8, big-endian) | signature (64)]`. -/
def HandshakePayload.to_bytes (v : HandshakePayload) : List Nat :=
  v.identity_key ++ (v.onion_key ++ (beBytes 8 v.timestamp ++ v.signature))

/-- `HandshakePayload::from_bytes`.  `Signature::from_bytes` is total in
ed25519-dalek v2 (the Rust call site uses it without error mapping), so the
only reachable failures are the size check and the identity-key decompression. -/
def HandshakePayload.from_bytes (bytes : List Nat) : Except HandshakeError HandshakePayload :=
  if bytes.length ≠ HANDSHAKE_PAYLOAD_SIZE then
    .error (.InvalidSize HANDSHAKE_PAYLOAD_SIZE bytes.length)
  else if ed25519ValidPoint (bytes.take 32) = false then .error .InvalidIdentityKey
  else .ok
    { identity_key := bytes.take 32
      onion_key := (bytes.drop 32).take 32
      timestamp := beNum ((bytes.drop 64).take 8)
      signature := bytes.drop 72 }

/-! ### SHA-256, HMAC-SHA256 and HKDF-SHA256 (FIPS 180-4 / RFC 2104 / RFC 5869)

These model the `sha2` and `hkdf` crates used by
`crypto/helper.rs::create_session_key`.  Words are `Nat` values `< 2 ^ 32`;
additions are explicitly reduced `% 2 ^ 32`. -/

def rotr32 (n x : Nat) : Nat :=
  x / 2 ^ n + x % 2 ^ n * 2 ^ (32 - n)

def not32 (x : Nat) : Nat := x ^^^ 0xFFFFFFFF

def shaCh (x y z : Nat) : Nat := (x &&& y) ^^^ (not32 x &&& z)

def shaMaj (x y z : Nat) : Nat := (x &&& y) ^^^ (x &&& z) ^^^ (y &&& z)

def shaS0 (x : Nat) : Nat := rotr32 2 x ^^^ rotr32 13 x ^^^ rotr32 22 x

def shaS1 (x : Nat) : Nat := rotr32 6 x ^^^ rotr32 11 x ^^^ rotr32 25 x

def shaG0 (x : Nat) : Nat := rotr32 7 x ^^^ rotr32 18 x ^^^ x / 2 ^ 3

def shaG1 (x : Nat) : Nat := rotr32 17 x ^^^ rotr32 19 x ^^^ x / 2 ^ 10

def sha256K : List Nat :=
  [1116352408, 1899447441, 3049323471, 3921009573, 961987163,
   1508970993, 2453635748, 2870763221, 3624381080, 310598401,
   607225278, 1426881987, 1925078388, 2162078206, 2614888103,
   3248222580, 3835390401, 4022224774, 264347078, 604807628,
   770255983, 1249150122, 1555081692, 1996064986, 2554220882,
   2821834349, 2952996808, 3210313671, 3336571891, 3584528711,
   113926993, 338241895, 666307205, 773529912, 1294757372,
   1396182291, 1695183700, 1986661051, 2177026350, 2456956037,
   2730485921, 2820302411, 3259730800, 3345764771, 3516065817,
   3600352804, 4094571909, 275423344, 430227734, 506948616,
   659060556, 883997877, 958139571, 1322822218, 1537002063,
   1747873779, 1955562222, 2024104815, 2227730452, 2361852424,
   2428436474, 2756734187, 3204031479, 3329325298]

def sha256H0 : List Nat :=
  [1779033703, 3144134277, 1013904242, 2773480762, 1359893119,
   2600822924, 528734635, 1541459225]

/-- Extend a 16-word message schedule by `k` further words. -/
def sha256Extend : List Nat → Nat → List Nat
  | ws, 0 => ws
  | ws, k + 1 =>
    let n := ws.length
    let w := (shaG1 (ws.getD (n - 2) 0) + ws.getD (n - 7) 0
              + shaG0 (ws.getD (n - 15) 0) + ws.getD (n - 16) 0) % 2 ^ 32
    sha256Extend (ws ++ [w]) k

def sha256Round (st : List Nat) (kw : Nat × Nat) : List Nat :=
  match st with
  | [a, b, c, d, e, f, g, h] =>
    let t1 := (h + shaS1 e + shaCh e f g + kw.1 + kw.2) % 2 ^ 32
    let t2 := (shaS0 a + shaMaj a b c) % 2 ^ 32
    [(t1 + t2) % 2 ^ 32, a, b, c, (d + t1) % 2 ^ 32, e, f, g]
  | other => other

def sha256Compress (h : List Nat) (block : List Nat) : List Nat :=
  let ws0 := (List.range 16).map fun i => beNum ((block.drop (4 * i)).take 4)
  let ws := sha256Extend ws0 48
  let out := (sha256K.zip ws).foldl sha256Round h
  (h.zip out).map fun st => (st.1 + st.2) % 2 ^ 32

def sha256Pad (msg : List Nat) : List Nat :=
  let z := (119 - msg.length % 64) % 64
  msg ++ [0x80] ++ List.replicate z 0 ++ beBytes 8 (8 * msg.length)

def sha256 (msg : List Nat) : List Nat :=
  let padded := sha256Pad msg
  let final := (List.range (padded.length / 64)).foldl
    (fun h i => sha256Compress h ((padded.drop (64 * i)).take 64)) sha256H0
  final.foldr (fun w acc => beBytes 4 w ++ acc) []

def hmacSha256 (key msg : List Nat) : List Nat :=
  let k1 := if 64 < key.length then sha256 key else key
  let k0 := k1 ++ List.replicate (64 - k1.length) 0
  sha256 ((k0.map fun b => b ^^^ 0x5c) ++ sha256 ((k0.map fun b => b ^^^ 0x36) ++ msg))

/-- `Hkdf::<Sha256>::new(None, ikm)` followed by `expand(&[], okm32)`:
RFC 5869 with an absent salt (= 32 zero bytes), empty info and a 32-byte
output, which is the single block `T(1) = HMAC(PRK, info ‖ 0x01)`. -/
def hkdfSha256NoSaltEmptyInfo32 (ikm : List Nat) : List Nat :=
  hmacSha256 (hmacSha256 (List.replicate 32 0) ikm) [0x01]

/-! ### X25519 (RFC 7748), as implemented by the x25519-dalek crate

`StaticSecret` clamps the 32 secret bytes (read little-endian) and runs the
Montgomery ladder on the curve `y^2 = x^3 + 486662 x^2 + x` over
`GF(2^255 - 19)`, using only `u`-coordinates. -/

def fAdd (a b : Nat) : Nat := (a + b) % p25519

def fSub (a b : Nat) : Nat := (a + (p25519 - b % p25519)) % p25519

def fMul (a b : Nat) : Nat := a * b % p25519

def a24 : Nat := 121665

/-- `clamp_integer`: clear the low three bits and bit 255, set bit 254. -/
def clampScalar (k : Nat) : Nat :=
  k % 2 ^ 254 / 8 * 8 + 2 ^ 254

def cswap (b x y : Nat) : Nat × Nat :=
  if b = 1 then (y, x) else (x, y)

def ladderStep (x1 : Nat) (st : Nat × Nat × Nat × Nat) : Nat × Nat × Nat × Nat :=
  let x2 := st.1; let z2 := st.2.1; let x3 := st.2.2.1; let z3 := st.2.2.2
  let A := fAdd x2 z2
  let AA := fMul A A
  let B := fSub x2 z2
  let BB := fMul B B
  let E := fSub AA BB
  let C := fAdd x3 z3
  let D := fSub x3 z3
  let DA := fMul D A
  let CB := fMul C B
  (fMul AA BB, fMul E (fAdd AA (fMul a24 E)),
   fMul (fAdd DA CB) (fAdd DA CB), fMul x1 (fMul (fSub DA CB) (fSub DA CB)))

/-- The X25519 Montgomery ladder on a clamped scalar `k` and `u`-coordinate. -/
def x25519Inner (k u : Nat) : Nat :=
  let u := u % p25519
  let final := (List.range 255).foldl
    (fun (st : (Nat × Nat × Nat × Nat) × Nat) i =>
      let t := 254 - i
      let kt := k / 2 ^ t % 2
      let sw := (st.2 + kt) % 2
      let p := st.1
      let (x2, x3) := cswap sw p.1 p.2.2.1
      let (z2, z3) := cswap sw p.2.1 p.2.2.2
      (ladderStep u (x2, z2, x3, z3), kt))
    ((1, 0, u, 1), 0)
  let p := final.1
  let (x2, _) := cswap final.2 p.1 p.2.2.1
  let (z2, _) := cswap final.2 p.2.1 p.2.2.2
  fMul x2 (powMod z2 (p25519 - 2) p25519)

/-- Byte-level X25519: little-endian scalar (clamped) and `u`-coordinate (top
bit masked), little-endian 32-byte result. -/
def x25519 (kBytes uBytes : List Nat) : List Nat :=
  leBytes 32 (x25519Inner (clampScalar (leNum kBytes)) (leNum uBytes % 2 ^ 255))

/-! ### `crypto/helper.rs::create_session_key` (byte level) -/

/-- `create_session_key`: X25519 Diffie-Hellman followed by HKDF-SHA256 with
no salt, empty info and a 32-byte output. -/
def create_session_key (my_private_key other_public_key : List Nat) : List Nat :=
  hkdfSha256NoSaltEmptyInfo32 (x25519 my_private_key other_public_key)

/-! ### `ffi.rs` (the entry points claim C6 is about)

Raw pointers are modelled as `Option (List Nat)`: `none` is a NULL pointer and
`some data` a valid pointer to `data` (whose length is the length declared by
the caller).  A Rust panic (`unwrap` on `None`) is the `panic` outcome. -/

inductive FfiOutcome where
  | panic
  | ret (code : Int) (output : List Nat)
deriving DecidableEq, Repr

/-- `raw_to_slice`: NULL or a zero length yields the empty slice. -/
def raw_to_slice (p : Option (List Nat)) (len : Nat) : List Nat :=
  match p with
  | none => []
  | some data => if len = 0 then [] else data

/-- `<[u8; n]>::try_from` on a slice: succeeds iff the length is exactly `n`. -/
def tryIntoArray (n : Nat) (l : List Nat) : Option (List Nat) :=
  if l.length = n then some l else none

/-- `ffi_create_session_key`: both key pointers are converted with
`try_from(...).unwrap()` — the `unwrap` panics when the conversion fails
(which happens for a NULL pointer, turned into an empty slice by
`raw_to_slice`).  Only afterwards is the output pointer checked. -/
def ffi_create_session_key (my_private_key_ptr other_public_key_ptr : Option (List Nat))
    (output_ptr_valid : Bool) : FfiOutcome :=
  let my_private_bytes := raw_to_slice my_private_key_ptr 32
  let other_public_bytes := raw_to_slice other_public_key_ptr 32
  match tryIntoArray 32 my_private_bytes with
  | none => .panic
  | some my_secret =>
    match tryIntoArray 32 other_public_bytes with
    | none => .panic
    | some other_public =>
      let session_key := create_session_key my_secret other_public
      if output_ptr_valid then .ret 1 session_key else .ret (-1) []

/-! ### Fast modular exponentiation: correctness

`powMod b e m = b ^ e % m`, so kernel-evaluable Fermat/Lucas checks can be
transported to `ZMod`. -/

theorem powModAux_eq (fuel b e m : Nat) (he : e < fuel) :
    powModAux fuel b e m = b ^ e % m := by
  induction fuel generalizing b e with
  | zero => omega
  | succ f ih =>
    by_cases h0 : e = 0
    · subst h0; simp [powModAux]
    · rw [powModAux, if_neg h0]
      have hlt : e / 2 < f := by omega
      rw [ih (b * b % m) (e / 2) hlt]
      have hbb : (b * b % m) ^ (e / 2) % m = (b * b) ^ (e / 2) % m :=
        (Nat.pow_mod (b * b) (e / 2) m).symm
      rcases Nat.even_or_odd e with he2 | he2
      · have h2 : e % 2 = 0 := Nat.even_iff.mp he2
        rw [if_neg (by omega), hbb, ← pow_two, ← pow_mul]
        have hee : 2 * (e / 2) = e := by omega
        rw [hee]
      · have h1 : e % 2 = 1 := Nat.odd_iff.mp he2
        rw [if_pos h1, hbb, Nat.mod_mul_mod, ← pow_two, ← pow_mul, ← pow_succ]
        have hee : 2 * (e / 2) + 1 = e := by omega
        rw [hee]

theorem powMod_eq (b e m : Nat) : powMod b e m = b ^ e % m := by
  rw [powMod, powModAux_eq _ _ _ _ (Nat.lt_succ_self e), ← Nat.pow_mod]

theorem zmod_pow_eq_one (n a e : Nat) (h : powMod a e n = 1) :
    ((a : ZMod n)) ^ e = 1 := by
  rw [powMod_eq] at h
  calc ((a : ZMod n)) ^ e = ((a ^ e : Nat) : ZMod n) := by rw [Nat.cast_pow]
    _ = ((a ^ e % n : Nat) : ZMod n) := (ZMod.natCast_mod _ n).symm
    _ = ((1 : Nat) : ZMod n) := by rw [h]
    _ = 1 := Nat.cast_one

theorem zmod_pow_ne_one (n a e : Nat) (h1 : 1 < n) (h : powMod a e n ≠ 1) :
    ((a : ZMod n)) ^ e ≠ 1 := by
  intro hc
  apply h
  haveI : Fact (1 < n) := ⟨h1⟩
  have hcast : ((a ^ e % n : Nat) : ZMod n) = 1 := by
    rw [ZMod.natCast_mod, Nat.cast_pow]; exact hc
  have hv := congrArg ZMod.val hcast
  rw [ZMod.val_cast_of_lt (Nat.mod_lt _ (by omega)), ZMod.val_one] at hv
  rw [powMod_eq]
  exact hv

/-- Lucas primality from a complete (with multiplicity) list of prime factors
of `n - 1` and a witness `a` of full multiplicative order. -/
theorem lucas_from_list (n a : Nat) (qs : List Nat) (hn : 2 ≤ n)
    (hprod : qs.prod = n - 1) (hq : ∀ q ∈ qs, Nat.Prime q)
    (ha : powMod a (n - 1) n = 1)
    (hd : ∀ q ∈ qs, powMod a ((n - 1) / q) n ≠ 1) : Nat.Prime n := by
  apply lucas_primality n ((a : ZMod n))
  · exact zmod_pow_eq_one n a (n - 1) ha
  · intro q hqprime hqdvd
    rw [← hprod] at hqdvd
    obtain ⟨r, hr, hqr⟩ := (Prime.dvd_prod_iff hqprime.prime).mp hqdvd
    have hrq : q = r := (Nat.prime_dvd_prime_iff_eq hqprime (hq r hr)).mp hqr
    subst hrq
    exact zmod_pow_ne_one n a _ (by omega) (hd q hr)

/-! ### A Pratt certificate chain for the primality of `2 ^ 255 - 19` -/

theorem prime_8574133 : Nat.Prime 8574133 := by
  apply lucas_from_list 8574133 2 [2, 2, 3, 7, 103, 991] (by norm_num) (by decide)
  · intro q hq
    simp only [List.mem_cons, List.not_mem_nil, or_false] at hq
    rcases hq with rfl | rfl | rfl | rfl | rfl | rfl <;> norm_num
  · decide
  · decide

theorem prime_2773320623 : Nat.Prime 2773320623 := by
  apply lucas_from_list 2773320623 5 [2, 2437, 569003] (by norm_num) (by decide)
  · intro q hq
    simp only [List.mem_cons, List.not_mem_nil, or_false] at hq
    rcases hq with rfl | rfl | rfl <;> norm_num
  · decide
  · decide

theorem prime_72106336199 : Nat.Prime 72106336199 := by
  apply lucas_from_list 72106336199 7 [2, 13, 2773320623] (by norm_num) (by decide)
  · intro q hq
    simp only [List.mem_cons, List.not_mem_nil, or_false] at hq
    rcases hq with rfl | rfl | rfl
    · norm_num
    · norm_num
    · exact prime_2773320623
  · decide
  · decide

theorem prime_1919519569386763 : Nat.Prime 1919519569386763 := by
  apply lucas_from_list 1919519569386763 2 [2, 3, 7, 19, 47, 47, 127, 8574133]
    (by norm_num) (by decide)
  · intro q hq
    simp only [List.mem_cons, List.not_mem_nil, or_false] at hq
    rcases hq with rfl | rfl | rfl | rfl | rfl | rfl | rfl | rfl
    · norm_num
    · norm_num
    · norm_num
    · norm_num
    · norm_num
    · norm_num
    · norm_num
    · exact prime_8574133
  · decide
  · decide

theorem prime_31757755568855353 : Nat.Prime 31757755568855353 := by
  apply lucas_from_list 31757755568855353 10 [2, 2, 2, 3, 31, 107, 223, 4153, 430751]
    (by norm_num) (by decide)
  · intro q hq
    simp only [List.mem_cons, List.not_mem_nil, or_false] at hq
    rcases hq with rfl | rfl | rfl | rfl | rfl | rfl | rfl | rfl | rfl <;> norm_num
  · decide
  · decide

theorem prime_75445702479781427272750846543864801 :
    Nat.Prime 75445702479781427272750846543864801 := by
  apply lucas_from_list 75445702479781427272750846543864801 7
    [2, 2, 2, 2, 2, 3, 3, 5, 5, 75707, 72106336199, 1919519569386763]
    (by norm_num) (by decide)
  · intro q hq
    simp only [List.mem_cons, List.not_mem_nil, or_false] at hq
    rcases hq with rfl | rfl | rfl | rfl | rfl | rfl | rfl | rfl | rfl | rfl | rfl | rfl
    · norm_num
    · norm_num
    · norm_num
    · norm_num
    · norm_num
    · norm_num
    · norm_num
    · norm_num
    · norm_num
    · norm_num
    · exact prime_72106336199
    · exact prime_1919519569386763
  · decide
  · decide

theorem prime_74058212732561358302231226437062788676166966415465897661863160754340907 :
    Nat.Prime 74058212732561358302231226437062788676166966415465897661863160754340907 := by
  apply lucas_from_list 74058212732561358302231226437062788676166966415465897661863160754340907 2
    [2, 3, 353, 57467, 132049, 1923133, 31757755568855353,
     75445702479781427272750846543864801]
    (by norm_num) (by decide)
  · intro q hq
    simp only [List.mem_cons, List.not_mem_nil, or_false] at hq
    rcases hq with rfl | rfl | rfl | rfl | rfl | rfl | rfl | rfl
    · norm_num
    · norm_num
    · norm_num
    · norm_num
    · norm_num
    · norm_num
    · exact prime_31757755568855353
    · exact prime_75445702479781427272750846543864801
  · decide
  · decide

theorem p25519_prime : Nat.Prime p25519 := by
  have h : p25519 =
      57896044618658097711785492504343953926634992332820282019728792003956564819949 := by
    decide
  rw [h]
  apply lucas_from_list _ 2
    [2, 2, 3, 65147, 74058212732561358302231226437062788676166966415465897661863160754340907]
    (by norm_num) (by decide)
  · intro q hq
    simp only [List.mem_cons, List.not_mem_nil, or_false] at hq
    rcases hq with rfl | rfl | rfl | rfl | rfl
    · norm_num
    · norm_num
    · norm_num
    · norm_num
    · exact prime_74058212732561358302231226437062788676166966415465897661863160754340907
  · decide
  · decide

instance p25519_fact_prime : Fact (Nat.Prime p25519) := ⟨p25519_prime⟩

/-! ### Curve25519 as a group, and the point-level model of `create_session_key`

Modelled from the spec: the body of `x25519_dalek::StaticSecret::diffie_hellman`
is not part of this repository; RFC 7748 defines its result as the
`u`-coordinate of the scalar multiple `clamp(k) • P` on the Montgomery curve
`y ^ 2 = x ^ 3 + 486662 x ^ 2 + x` over `GF(2 ^ 255 - 19)` (the byte-level
Montgomery ladder `x25519` above computes exactly this).  Here the curve is a
short Weierstrass curve directly, so Mathlib's group structure on its points
applies.  `create_session_key_spec` is `create_session_key` with the peer's
public key taken as the curve point it encodes. -/

def Curve25519 : WeierstrassCurve.Affine (ZMod p25519) :=
  { a₁ := 0, a₂ := 486662, a₃ := 0, a₄ := 1, a₆ := 0 }

def baseY : ZMod p25519 :=
  14781619447589544791020593568409986887264606134616475288964881837755586237401

theorem basePoint_nonsingular : Curve25519.Nonsingular 9 baseY := by
  rw [WeierstrassCurve.Affine.nonsingular_iff, WeierstrassCurve.Affine.equation_iff]
  refine ⟨by decide, Or.inl (by decide)⟩

/-- The X25519 base point, of `u`-coordinate 9. -/
def basePoint : Curve25519.Point :=
  WeierstrassCurve.Affine.Point.some basePoint_nonsingular

/-- The little-endian 32-byte encoding of a point's `u`-coordinate (the bytes
`SharedSecret::as_bytes` / `PublicKey::as_bytes` expose); the point at
infinity, which the `u`-coordinate-only ladder cannot distinguish from
`u = 0`, encodes as zero. -/
def uCoordBytes : Curve25519.Point → List Nat
  | .zero => leBytes 32 0
  | @WeierstrassCurve.Affine.Point.some _ _ _ x _ _ => leBytes 32 x.val

/-- The X25519 Diffie-Hellman operation at point level: clamp the secret
scalar and multiply the peer point by it. -/
noncomputable def montgomeryDH (priv : Nat) (peer : Curve25519.Point) : Curve25519.Point :=
  clampScalar priv • peer

/-- The public key derived from a private scalar (`PublicKey::from(&secret)`):
the clamped scalar times the base point. -/
noncomputable def x25519PublicKeyPoint (priv : Nat) : Curve25519.Point :=
  montgomeryDH priv basePoint

/-- `create_session_key`, with the Diffie-Hellman step at point level:
HKDF-SHA256 (no salt, empty info, 32-byte output) of the encoded shared
`u`-coordinate. -/
noncomputable def create_session_key_spec (priv : Nat) (peer : Curve25519.Point) : List Nat :=
  hkdfSha256NoSaltEmptyInfo32 (uCoordBytes (montgomeryDH priv peer))

/-! ### Big-endian codec lemmas -/

theorem beBytes_length (w n : Nat) : (beBytes w n).length = w := by
  induction w generalizing n with
  | zero => rfl
  | succ v ih => simp [beBytes, ih]

theorem beBytes_lt (w n : Nat) : ∀ b ∈ beBytes w n, b < 256 := by
  induction w generalizing n with
  | zero => simp [beBytes]
  | succ v ih =>
    intro b hb
    rw [beBytes, List.mem_append] at hb
    rcases hb with h | h
    · exact ih _ b h
    · simp only [List.mem_singleton] at h
      subst h
      exact Nat.mod_lt _ (by omega)

theorem beNum_append_single (l : List Nat) (b : Nat) :
    beNum (l ++ [b]) = beNum l * 256 + b := by
  simp [beNum, List.foldl_append]

theorem beNum_beBytes_mod (w n : Nat) : beNum (beBytes w n) = n % 256 ^ w := by
  induction w generalizing n with
  | zero => simp [beBytes, beNum, Nat.mod_one]
  | succ v ih =>
    rw [beBytes, beNum_append_single, ih]
    calc n / 256 % 256 ^ v * 256 + n % 256
        = n % 256 + 256 * (n / 256 % 256 ^ v) := by ring
      _ = n % (256 * 256 ^ v) := Nat.mod_mul.symm
      _ = n % 256 ^ (v + 1) := by rw [pow_succ, Nat.mul_comm]

theorem beNum_beBytes (w n : Nat) (h : n < 256 ^ w) : beNum (beBytes w n) = n := by
  rw [beNum_beBytes_mod, Nat.mod_eq_of_lt h]

/-! ### CRC-32 lemmas

The single bit-flip tamper argument: the per-bit CRC step is injective on
32-bit states (the top bit of the output records the input's parity, because
the reversed polynomial has its top bit set), hence the per-byte step is
injective in the state and, by xor cancellation, in the byte; a fold over a
common suffix therefore preserves the divergence created at the flipped
byte. -/

theorem crcBitStep_lt {s : Nat} (hs : s < 2 ^ 32) : crcBitStep s < 2 ^ 32 := by
  rw [crcBitStep]
  split
  · exact Nat.xor_lt_two_pow (by omega) (by decide)
  · omega

theorem crcBitStep_testBit31 {s : Nat} (hs : s < 2 ^ 32) :
    (crcBitStep s).testBit 31 = decide (s % 2 = 1) := by
  have hdiv : s / 2 < 2 ^ 31 := by omega
  rw [crcBitStep]
  split
  · rename_i h
    rw [Nat.testBit_xor, Nat.testBit_lt_two_pow hdiv, h]
    decide
  · rename_i h
    rw [Nat.testBit_lt_two_pow hdiv]
    simp [h]

theorem crcBitStep_inj {s₁ s₂ : Nat} (h₁ : s₁ < 2 ^ 32) (h₂ : s₂ < 2 ^ 32)
    (h : crcBitStep s₁ = crcBitStep s₂) : s₁ = s₂ := by
  have hbit := crcBitStep_testBit31 h₁
  rw [h, crcBitStep_testBit31 h₂] at hbit
  simp only [decide_eq_decide] at hbit
  rw [crcBitStep, crcBitStep] at h
  by_cases hp : s₂ % 2 = 1
  · have hp₁ : s₁ % 2 = 1 := hbit.mp hp
    rw [if_pos hp₁, if_pos hp] at h
    have : s₁ / 2 = s₂ / 2 := by
      have := congrArg (· ^^^ crcPoly) h
      simpa [Nat.xor_cancel_right] using this
    omega
  · have hp₁ : ¬ s₁ % 2 = 1 := fun hc => hp (hbit.mpr hc)
    rw [if_neg hp₁, if_neg hp] at h
    omega

theorem crcBitStep_iterate_lt (n : Nat) {s : Nat} (hs : s < 2 ^ 32) :
    crcBitStep^[n] s < 2 ^ 32 := by
  induction n generalizing s with
  | zero => simpa using hs
  | succ m ih => rw [Function.iterate_succ_apply]; exact ih (crcBitStep_lt hs)

theorem crcBitStep_iterate_inj (n : Nat) {s₁ s₂ : Nat} (h₁ : s₁ < 2 ^ 32)
    (h₂ : s₂ < 2 ^ 32) (h : crcBitStep^[n] s₁ = crcBitStep^[n] s₂) : s₁ = s₂ := by
  induction n generalizing s₁ s₂ with
  | zero => simpa using h
  | succ m ih =>
    rw [Function.iterate_succ_apply, Function.iterate_succ_apply] at h
    exact crcBitStep_inj h₁ h₂ (ih (crcBitStep_lt h₁) (crcBitStep_lt h₂) h)

theorem crcByteStep_lt {s b : Nat} (hs : s < 2 ^ 32) (hb : b < 2 ^ 32) :
    crcByteStep s b < 2 ^ 32 :=
  crcBitStep_iterate_lt 8 (Nat.xor_lt_two_pow hs hb)

theorem crcByteStep_state_inj {s₁ s₂ b : Nat} (h₁ : s₁ < 2 ^ 32) (h₂ : s₂ < 2 ^ 32)
    (hb : b < 2 ^ 32) (hne : s₁ ≠ s₂) : crcByteStep s₁ b ≠ crcByteStep s₂ b := by
  intro hc
  apply hne
  have := crcBitStep_iterate_inj 8 (Nat.xor_lt_two_pow h₁ hb) (Nat.xor_lt_two_pow h₂ hb) hc
  have h' := congrArg (· ^^^ b) this
  simpa [Nat.xor_cancel_right] using h'

theorem crcByteStep_byte_inj {s b₁ b₂ : Nat} (hs : s < 2 ^ 32) (h₁ : b₁ < 2 ^ 32)
    (h₂ : b₂ < 2 ^ 32) (hne : b₁ ≠ b₂) : crcByteStep s b₁ ≠ crcByteStep s b₂ := by
  intro hc
  apply hne
  have := crcBitStep_iterate_inj 8 (Nat.xor_lt_two_pow hs h₁) (Nat.xor_lt_two_pow hs h₂) hc
  have h' := congrArg (s ^^^ ·) this
  simpa [Nat.xor_cancel_left] using h'

theorem crcFold_lt (l : List Nat) (hl : ∀ b ∈ l, b < 2 ^ 32) {s : Nat}
    (hs : s < 2 ^ 32) : l.foldl crcByteStep s < 2 ^ 32 := by
  induction l generalizing s with
  | nil => simpa using hs
  | cons b t ih =>
    rw [List.foldl_cons]
    exact ih (fun x hx => hl x (List.mem_cons_of_mem b hx))
      (crcByteStep_lt hs (hl b (List.mem_cons_self b t)))

theorem crcFold_inj (l : List Nat) (hl : ∀ b ∈ l, b < 2 ^ 32) {s₁ s₂ : Nat}
    (h₁ : s₁ < 2 ^ 32) (h₂ : s₂ < 2 ^ 32) (hne : s₁ ≠ s₂) :
    l.foldl crcByteStep s₁ ≠ l.foldl crcByteStep s₂ := by
  induction l generalizing s₁ s₂ with
  | nil => simpa using hne
  | cons b t ih =>
    rw [List.foldl_cons, List.foldl_cons]
    have hb := hl b (List.mem_cons_self b t)
    exact ih (fun x hx => hl x (List.mem_cons_of_mem b hx))
      (crcByteStep_lt h₁ hb) (crcByteStep_lt h₂ hb)
      (crcByteStep_state_inj h₁ h₂ hb hne)

theorem crc32_lt (l : List Nat) (hl : ∀ b ∈ l, b < 2 ^ 32) : crc32 l < 2 ^ 32 :=
  Nat.xor_lt_two_pow (crcFold_lt l hl (by decide)) (by decide)

/-- Two payloads differing in exactly one byte have different CRC-32 values. -/
theorem crc32_single_byte_ne (pre suf : List Nat) {b₁ b₂ : Nat}
    (hpre : ∀ x ∈ pre, x < 2 ^ 32) (hsuf : ∀ x ∈ suf, x < 2 ^ 32)
    (h₁ : b₁ < 2 ^ 32) (h₂ : b₂ < 2 ^ 32) (hne : b₁ ≠ b₂) :
    crc32 (pre ++ b₁ :: suf) ≠ crc32 (pre ++ b₂ :: suf) := by
  intro hc
  rw [crc32, crc32] at hc
  have hc' := congrArg (· ^^^ 0xFFFFFFFF) hc
  simp only [Nat.xor_cancel_right] at hc'
  rw [List.foldl_append, List.foldl_append, List.foldl_cons, List.foldl_cons] at hc'
  have hs : pre.foldl crcByteStep 0xFFFFFFFF < 2 ^ 32 := crcFold_lt pre hpre (by decide)
  exact crcFold_inj suf hsuf (crcByteStep_lt hs h₁) (crcByteStep_lt hs h₂)
    (crcByteStep_byte_inj hs h₁ h₂ hne) hc'

/-- Flipping a bit changes a byte (and stays below 256 for a byte-range bit). -/
theorem xor_two_pow_ne (b k : Nat) : b ^^^ 2 ^ k ≠ b := by
  intro hc
  have := congrArg (fun x => Nat.testBit x k) hc
  simp only [Nat.testBit_xor, Nat.testBit_two_pow_self] at this
  revert this
  cases b.testBit k <;> decide

theorem xor_two_pow_lt {b k : Nat} (hb : b < 256) (hk : k < 8) : b ^^^ 2 ^ k < 256 := by
  have h2 : (2 : Nat) ^ k < 2 ^ 8 := Nat.pow_lt_pow_right (by omega) hk
  exact Nat.xor_lt_two_pow hb h2

/-! ### Header codec round-trip -/

theorem fromByte_toByte (mt : MessageType) : MessageType.fromByte mt.toByte = mt := by
  cases mt <;> rfl

theorem header_to_bytes_length (h : FixedHeader) : h.to_bytes.length = 16 := by
  simp [FixedHeader.to_bytes, beBytes_length]

theorem parseHeader_to_bytes (h : FixedHeader) (hv : h.Valid) : parseHeader h.to_bytes = h := by
  obtain ⟨v, f, mt, r, rid, pl, cs⟩ := h
  obtain ⟨hver, hfl, hres, hrid, hpl, hcs⟩ := hv
  have hpow : (256 : Nat) ^ 4 = 2 ^ 32 := by norm_num
  rw [FixedHeader.to_bytes, parseHeader]
  simp only [List.cons_append, List.nil_append, List.getD_cons_zero, List.getD_cons_succ,
    List.drop_succ_cons, List.drop_zero]
  rw [List.take_left' (beBytes_length 4 rid), List.drop_left' (beBytes_length 4 rid),
    List.take_left' (beBytes_length 4 pl),
    show (8 : Nat) = 4 + 4 from rfl, ← List.drop_drop,
    List.drop_left' (beBytes_length 4 rid), List.drop_left' (beBytes_length 4 pl),
    List.take_of_length_le (le_of_eq (beBytes_length 4 cs)),
    fromByte_toByte,
    beNum_beBytes 4 rid (by rw [show (256 : Nat) ^ 4 = 2 ^ 32 by norm_num]; exact hrid),
    beNum_beBytes 4 pl (by rw [show (256 : Nat) ^ 4 = 2 ^ 32 by norm_num]; exact hpl),
    beNum_beBytes 4 cs (by rw [show (256 : Nat) ^ 4 = 2 ^ 32 by norm_num]; exact hcs)]

theorem header_roundtrip (h : FixedHeader) (hv : h.Valid) :
    FixedHeader.from_bytes h.to_bytes = .ok h := by
  rw [FixedHeader.from_bytes, if_neg (by rw [header_to_bytes_length]; decide),
    parseHeader_to_bytes h hv]

/-! ### Packet codec round-trip -/

theorem create_valid (mt : MessageType) (rid : Nat) (payload : List Nat)
    (hrid : rid < 2 ^ 32) (hb : ∀ b ∈ payload, b < 256) :
    (FixedHeader.create mt rid payload).Valid := by
  refine ⟨?_, ?_, ?_, ?_, ?_, ?_⟩
  · show (1 : Nat) < 256
    decide
  · show (0 : Nat) < 256
    decide
  · show (0 : Nat) < 256
    decide
  · exact hrid
  · show payload.length % 2 ^ 32 < 2 ^ 32
    exact Nat.mod_lt _ (by decide)
  · show crc32 payload < 2 ^ 32
    exact crc32_lt payload fun b hbm => (hb b hbm).trans (by decide)

theorem packet_roundtrip (mt : MessageType) (rid : Nat) (payload : List Nat)
    (hrid : rid < 2 ^ 32) (hlen : payload.length < 2 ^ 32)
    (hbytes : ∀ b ∈ payload, b < 256) :
    NetworkPacket.from_bytes (NetworkPacket.new mt rid payload).to_bytes
      = .ok (NetworkPacket.new mt rid payload) := by
  have hdata : (NetworkPacket.new mt rid payload).to_bytes
      = (FixedHeader.create mt rid payload).to_bytes ++ payload := rfl
  have hdlen : ((FixedHeader.create mt rid payload).to_bytes ++ payload).length
      = 16 + payload.length := by
    simp [List.length_append, header_to_bytes_length]
  have hplfield : (FixedHeader.create mt rid payload).payload_length = payload.length := by
    simp only [FixedHeader.create, FixedHeader.new]
    exact Nat.mod_eq_of_lt hlen
  rw [NetworkPacket.from_bytes, hdata]
  simp only [HEADER_SIZE]
  rw [if_neg (by rw [hdlen]; omega)]
  rw [List.take_left' (header_to_bytes_length _),
    header_roundtrip _ (create_valid mt rid payload hrid hbytes)]
  dsimp only
  rw [hplfield, hdlen, if_neg (by omega)]
  rw [List.drop_left' (header_to_bytes_length _), List.take_length]
  have hcrc : (FixedHeader.create mt rid payload).checksum = crc32 payload := rfl
  rw [hcrc, if_neg (not_not_intro rfl)]
  rfl

/-! ### Handshake codec round-trip -/

theorem handshake_to_bytes_length (v : HandshakePayload) (hv : v.Valid) :
    v.to_bytes.length = 136 := by
  obtain ⟨hik, hok, hsig, hts, hvalid⟩ := hv
  simp [HandshakePayload.to_bytes, List.length_append, beBytes_length, hik, hok, hsig]

theorem handshake_roundtrip (v : HandshakePayload) (hv : v.Valid) :
    HandshakePayload.from_bytes v.to_bytes = .ok v := by
  have hlen := handshake_to_bytes_length v hv
  obtain ⟨w, x, ts, sg⟩ := v
  obtain ⟨hik, hok, hsig, hts, hvalid⟩ := hv
  simp only [HandshakePayload.to_bytes] at hlen ⊢
  simp only at hik hok hsig hts hvalid
  have htake32 : (w ++ (x ++ (beBytes 8 ts ++ sg))).take 32 = w := List.take_left' hik
  rw [HandshakePayload.from_bytes, if_neg (by rw [hlen]; decide), htake32, hvalid,
    if_neg (by decide)]
  rw [show (64 : Nat) = 32 + 32 from rfl, ← List.drop_drop]
  rw [show (72 : Nat) = 32 + 40 from rfl, ← List.drop_drop]
  rw [List.drop_left' hik, List.take_left' hok]
  rw [show (40 : Nat) = 32 + 8 from rfl, ← List.drop_drop]
  rw [List.drop_left' hok, List.take_left' (beBytes_length 8 ts),
    List.drop_left' (beBytes_length 8 ts),
    beNum_beBytes 8 ts (by rw [show (256 : Nat) ^ 8 = 2 ^ 64 by norm_num]; exact hts)]

/-! ### Characterization of `NetworkPacket.from_bytes` on buffers of length at
least 16 -/

theorem from_bytes_cases (data : List Nat) (h16 : ¬ data.length < 16) :
    NetworkPacket.from_bytes data =
      if data.length < 16 + declaredPayloadLen data then
        .error (.PayloadLengthMismatch (declaredPayloadLen data) (data.length - 16))
      else if crc32 (extractedPayload data) ≠ storedChecksum data then
        .error (.ChecksumMismatch (storedChecksum data) (crc32 (extractedPayload data)))
      else .ok ⟨parseHeader (data.take 16), extractedPayload data⟩ := by
  rw [NetworkPacket.from_bytes]
  simp only [HEADER_SIZE]
  rw [if_neg h16, FixedHeader.from_bytes,
    if_neg (by simp only [HEADER_SIZE, List.length_take]; omega)]
  rfl

/-- C2: packet decode error characterization — for every byte buffer,
`NetworkPacket::from_bytes` fails with the buffer-too-small header error iff
the input is shorter than 16 bytes; otherwise it fails with
`PayloadLengthMismatch` iff the declared payload length exceeds the bytes
available after the 16-byte header; otherwise it fails with
`ChecksumMismatch` iff the CRC-32 recomputed over the extracted payload
differs from the stored checksum; otherwise it succeeds (extra trailing bytes
beyond `16 + payload_length` never cause failure). -/
theorem c2_packet_decode_error_taxonomy (data : List Nat) :
    (NetworkPacket.from_bytes data = .error (.HeaderError .BufferTooSmall)
      ↔ data.length < 16)
    ∧ (16 ≤ data.length →
        (NetworkPacket.from_bytes data
            = .error (.PayloadLengthMismatch (declaredPayloadLen data) (data.length - 16))
          ↔ data.length < 16 + declaredPayloadLen data))
    ∧ (16 + declaredPayloadLen data ≤ data.length →
        (NetworkPacket.from_bytes data
            = .error (.ChecksumMismatch (storedChecksum data) (crc32 (extractedPayload data)))
          ↔ crc32 (extractedPayload data) ≠ storedChecksum data))
    ∧ (16 + declaredPayloadLen data ≤ data.length →
        crc32 (extractedPayload data) = storedChecksum data →
        NetworkPacket.from_bytes data
          = .ok ⟨parseHeader (data.take 16), extractedPayload data⟩) := by
  refine ⟨⟨fun hc => ?_, fun h16 => ?_⟩, fun h16 => ⟨fun hc => ?_, fun h2 => ?_⟩,
    fun h2 => ⟨fun hc => ?_, fun hne => ?_⟩, fun h2 hcrc => ?_⟩
  · by_contra h16
    rw [from_bytes_cases data h16] at hc
    split at hc
    · simp at hc
    · split at hc
      · simp at hc
      · simp at hc
  · rw [NetworkPacket.from_bytes]
    simp only [HEADER_SIZE]
    rw [if_pos h16]
  · rw [from_bytes_cases data (by omega)] at hc
    split at hc
    · assumption
    · split at hc
      · simp at hc
      · simp at hc
  · rw [from_bytes_cases data (by omega), if_pos h2]
  · rw [from_bytes_cases data (by omega), if_neg (by omega)] at hc
    split at hc
    · assumption
    · simp at hc
  · rw [from_bytes_cases data (by omega), if_neg (by omega), if_pos hne]
  · rw [from_bytes_cases data (by omega), if_neg (by omega),
      if_neg (not_not_intro hcrc)]

/-- C2 witness: a concrete 20-byte all-zero buffer (declared payload length 0,
stored checksum 0 = CRC-32 of the empty payload) decodes successfully despite
4 trailing bytes. -/
theorem c2_witness :
    NetworkPacket.from_bytes (List.replicate 20 0)
      = .ok ⟨parseHeader ((List.replicate 20 0).take 16),
          extractedPayload (List.replicate 20 0)⟩ :=
  (c2_packet_decode_error_taxonomy (List.replicate 20 0)).2.2.2 (by decide) (by decide)

/-! ### Projection lemmas, established once with variable arguments (so that
instances at very large concrete arguments never force kernel evaluation) -/

theorem create_payload_length (mt : MessageType) (rid : Nat) (payload : List Nat) :
    (FixedHeader.create mt rid payload).payload_length = payload.length % 2 ^ 32 := rfl

theorem create_checksum (mt : MessageType) (rid : Nat) (payload : List Nat) :
    (FixedHeader.create mt rid payload).checksum = crc32 payload := rfl

theorem new_payload (mt : MessageType) (rid : Nat) (payload : List Nat) :
    (NetworkPacket.new mt rid payload).payload = payload := rfl

theorem new_to_bytes (mt : MessageType) (rid : Nat) (payload : List Nat) :
    (NetworkPacket.new mt rid payload).to_bytes
      = (FixedHeader.create mt rid payload).to_bytes ++ payload := rfl

/-- C1 counterexample: for the packet built from the `2 ^ 32`-byte payload,
`payload.len() as u32` wraps to 0, so decoding its encoding cannot return a
packet equal to it (the decoder extracts a 0-byte payload). -/
theorem c1_counterexample :
    NetworkPacket.from_bytes
        (NetworkPacket.new .Handshake 0 (List.replicate (2 ^ 32) 0)).to_bytes
      ≠ .ok (NetworkPacket.new .Handshake 0 (List.replicate (2 ^ 32) 0)) := by
  intro hc
  have hbytes : ∀ b ∈ List.replicate (2 ^ 32) (0 : Nat), b < 256 := by
    intro b hb
    rw [List.eq_of_mem_replicate hb]
    decide
  have hlen : ((FixedHeader.create .Handshake 0 (List.replicate (2 ^ 32) 0)).to_bytes
      ++ List.replicate (2 ^ 32) 0).length = 16 + 2 ^ 32 := by
    rw [List.length_append, header_to_bytes_length, List.length_replicate]
  have hhsz : (FixedHeader.create .Handshake 0
      (List.replicate (2 ^ 32) 0)).to_bytes.length = HEADER_SIZE :=
    header_to_bytes_length _
  have hdecl : declaredPayloadLen ((FixedHeader.create .Handshake 0
      (List.replicate (2 ^ 32) 0)).to_bytes ++ List.replicate (2 ^ 32) 0) = 0 := by
    rw [declaredPayloadLen, List.take_left' hhsz,
      parseHeader_to_bytes _ (create_valid _ _ _ (by decide) hbytes),
      create_payload_length, List.length_replicate, Nat.mod_self]
  rw [new_to_bytes] at hc
  rw [from_bytes_cases _ (by rw [hlen]; decide)] at hc
  rw [hdecl, if_neg (by rw [hlen]; decide)] at hc
  by_cases hcrc : crc32 (extractedPayload ((FixedHeader.create .Handshake 0
        (List.replicate (2 ^ 32) 0)).to_bytes ++ List.replicate (2 ^ 32) 0))
      ≠ storedChecksum ((FixedHeader.create .Handshake 0
        (List.replicate (2 ^ 32) 0)).to_bytes ++ List.replicate (2 ^ 32) 0)
  · rw [if_pos hcrc] at hc
    exact Except.noConfusion hc
  · rw [if_neg hcrc] at hc
    have hpay := congrArg NetworkPacket.payload (Except.ok.inj hc)
    rw [new_payload, extractedPayload, hdecl, List.take_zero] at hpay
    have hl := congrArg List.length hpay
    rw [List.length_nil, List.length_replicate] at hl
    exact absurd hl (by decide)

/-- C1 (amended): the three codecs round-trip — every valid header decodes
back from its encoding; every packet built by `NetworkPacket::new` from a
payload of fewer than `2 ^ 32` bytes decodes back from its encoding; and
every valid handshake payload decodes back from its encoding. -/
theorem c1_codec_round_trips :
    (∀ h : FixedHeader, h.Valid → FixedHeader.from_bytes h.to_bytes = .ok h)
    ∧ (∀ (mt : MessageType) (rid : Nat) (payload : List Nat),
        rid < 2 ^ 32 → payload.length < 2 ^ 32 → (∀ b ∈ payload, b < 256) →
        NetworkPacket.from_bytes (NetworkPacket.new mt rid payload).to_bytes
          = .ok (NetworkPacket.new mt rid payload))
    ∧ (∀ v : HandshakePayload, v.Valid →
        HandshakePayload.from_bytes v.to_bytes = .ok v) :=
  ⟨header_roundtrip, packet_roundtrip, handshake_roundtrip⟩

/-- C1 witness: the three round-trips at concrete values. -/
theorem c1_witness :
    FixedHeader.from_bytes (FixedHeader.to_bytes ⟨1, 0, .Onion, 0, 7, 9, 11⟩)
        = .ok ⟨1, 0, .Onion, 0, 7, 9, 11⟩
    ∧ NetworkPacket.from_bytes (NetworkPacket.new .Handshake 5 [1, 2, 3]).to_bytes
        = .ok (NetworkPacket.new .Handshake 5 [1, 2, 3])
    ∧ HandshakePayload.from_bytes
        (HandshakePayload.to_bytes ⟨1 :: List.replicate 31 0, List.replicate 32 2,
          1700000000, List.replicate 64 3⟩)
        = .ok ⟨1 :: List.replicate 31 0, List.replicate 32 2, 1700000000,
            List.replicate 64 3⟩ :=
  ⟨c1_codec_round_trips.1 _ (by decide),
   c1_codec_round_trips.2.1 .Handshake 5 [1, 2, 3] (by decide) (by decide) (by decide),
   c1_codec_round_trips.2.2 _ (by decide)⟩

/-- C4 counterexample: at a `2 ^ 32`-byte payload, the header built by
`FixedHeader::create` has `payload_length` 0 (the `as u32` cast wraps), not
the payload length. -/
theorem c4_counterexample :
    (FixedHeader.create .Handshake 0 (List.replicate (2 ^ 32) 0)).payload_length
      ≠ (List.replicate (2 ^ 32) (0 : Nat)).length := by
  rw [create_payload_length, List.length_replicate, Nat.mod_self]
  decide

/-- C4 (amended): for every message type, request id, and payload of fewer
than `2 ^ 32` bytes, `FixedHeader::create` (used by `NetworkPacket::new`)
produces exactly version 1, flags 0, reserved 0, the given request id, the
exact payload length, and the CRC-32 of exactly that payload. -/
theorem c4_create_invariant (mt : MessageType) (rid : Nat) (payload : List Nat)
    (hlen : payload.length < 2 ^ 32) :
    FixedHeader.create mt rid payload =
      { version := 1, flags := 0, message_type := mt, reserved := 0,
        request_id := rid, payload_length := payload.length,
        checksum := crc32 payload } := by
  simp only [FixedHeader.create, FixedHeader.new, Nat.mod_eq_of_lt hlen]

/-- C4 witness: the construction invariant at a concrete payload. -/
theorem c4_witness :
    FixedHeader.create .Store 7 [9, 8] =
      { version := 1, flags := 0, message_type := .Store, reserved := 0,
        request_id := 7, payload_length := 2, checksum := crc32 [9, 8] } :=
  c4_create_invariant .Store 7 [9, 8] (by decide)

/-- The message-type byte values with a dedicated variant. -/
def knownMessageTypeBytes : List Nat :=
  [0x01, 0x02, 0x03, 0x04, 0x05, 0x06, 0x07, 0x08, 0x0A, 0x0B, 0x0C]

/-- C10: every byte value outside the known wire values maps to the `Unknown`
variant, and `FixedHeader::from_bytes` succeeds on every buffer of at least 16
bytes — in particular it never fails because of the message-type byte. -/
theorem c10_unknown_message_type_fallback :
    (∀ b : Nat, b < 256 → b ∉ knownMessageTypeBytes →
      MessageType.fromByte b = .Unknown)
    ∧ ∀ data : List Nat, 16 ≤ data.length →
        FixedHeader.from_bytes data = .ok (parseHeader data) := by
  constructor
  · intro b hb hmem
    simp only [knownMessageTypeBytes, List.mem_cons, List.not_mem_nil, or_false] at hmem
    push_neg at hmem
    obtain ⟨h1, h2, h3, h4, h5, h6, h7, h8, hA, hB, hC⟩ := hmem
    rw [MessageType.fromByte, if_neg h1, if_neg h2, if_neg h3, if_neg h4, if_neg h5,
      if_neg h6, if_neg h7, if_neg h8, if_neg hA, if_neg hB, if_neg hC]
  · intro data hlen
    rw [FixedHeader.from_bytes, if_neg (by simp only [HEADER_SIZE]; omega)]

/-- C10 witness: byte `0x42` decodes to `Unknown`, and a 16-byte buffer
containing it as the message-type byte still parses. -/
theorem c10_witness :
    MessageType.fromByte 0x42 = .Unknown
    ∧ FixedHeader.from_bytes (0 :: 0 :: 0x42 :: List.replicate 13 0)
        = .ok (parseHeader (0 :: 0 :: 0x42 :: List.replicate 13 0)) :=
  ⟨c10_unknown_message_type_fallback.1 0x42 (by decide) (by decide),
   c10_unknown_message_type_fallback.2 _ (by decide)⟩

theorem new_header (mt : MessageType) (rid : Nat) (payload : List Nat) :
    (NetworkPacket.new mt rid payload).header = FixedHeader.create mt rid payload := rfl

/-! ### Repeated-block payloads for the C3 counterexample

The 4-byte block `[157, 10, 217, 109]` is the unique block whose CRC-32 fold
fixes the initial state `0xFFFFFFFF`, so a payload made of any number of its
repetitions has CRC-32 equal to 0. -/

theorem crcFold_flatten_replicate (C : List Nat) (s : Nat)
    (h : List.foldl crcByteStep s C = s) (N : Nat) :
    List.foldl crcByteStep s ((List.replicate N C).flatten) = s := by
  induction N with
  | zero => rfl
  | succ n ih =>
    rw [List.replicate_succ, List.flatten_cons, List.foldl_append, h, ih]

theorem length_flatten_replicate (N : Nat) (C : List Nat) :
    ((List.replicate N C).flatten).length = N * C.length := by
  induction N with
  | zero => rw [Nat.zero_mul]; rfl
  | succ n ih =>
    rw [List.replicate_succ, List.flatten_cons, List.length_append, ih, Nat.succ_mul]
    omega

theorem mem_flatten_replicate {b : Nat} {N : Nat} {C : List Nat}
    (hb : b ∈ (List.replicate N C).flatten) : b ∈ C := by
  rcases List.mem_flatten.mp hb with ⟨l, hl, hbl⟩
  rwa [List.eq_of_mem_replicate hl] at hbl

/-- C3 counterexample: the original claim quantifies over every packet built
by `NetworkPacket::new` with a non-empty payload, including payloads of
`2 ^ 32` bytes or more.  Take the `2 ^ 32`-byte payload made of `2 ^ 30`
copies of `[157, 10, 217, 109]`, whose CRC-32 is 0.  Its encoding carries a
wrapped `payload_length` of 0 and a stored checksum of 0, so after flipping
bit 0 of the payload byte at buffer offset 16 (the first conjunct exhibits
that byte; the second shows the flip changes it), `NetworkPacket::from_bytes`
extracts the empty payload, recomputes CRC-32 0 — and succeeds, instead of
failing with `ChecksumMismatch`. -/
theorem c3_counterexample :
    (NetworkPacket.new .Onion 1
        ((List.replicate (2 ^ 30) [157, 10, 217, 109]).flatten)).to_bytes
      = (NetworkPacket.new .Onion 1
          ((List.replicate (2 ^ 30) [157, 10, 217, 109]).flatten)).header.to_bytes
        ++ (157 :: 10 :: 217 :: 109 ::
            (List.replicate (2 ^ 30 - 1) [157, 10, 217, 109]).flatten)
    ∧ 157 ^^^ 2 ^ 0 ≠ 157
    ∧ NetworkPacket.from_bytes
        ((NetworkPacket.new .Onion 1
            ((List.replicate (2 ^ 30) [157, 10, 217, 109]).flatten)).header.to_bytes
          ++ ((157 ^^^ 2 ^ 0) :: 10 :: 217 :: 109 ::
              (List.replicate (2 ^ 30 - 1) [157, 10, 217, 109]).flatten))
      = .ok ⟨FixedHeader.create .Onion 1
          ((List.replicate (2 ^ 30) [157, 10, 217, 109]).flatten), []⟩ := by
  have hsplit : (List.replicate (2 ^ 30) [157, 10, 217, 109]).flatten
      = 157 :: 10 :: 217 :: 109
        :: (List.replicate (2 ^ 30 - 1) [157, 10, 217, 109]).flatten := by
    rw [show (2 ^ 30 : Nat) = (2 ^ 30 - 1) + 1 by norm_num, List.replicate_succ,
      List.flatten_cons]
    rfl
  have hfix : List.foldl crcByteStep 0xFFFFFFFF [157, 10, 217, 109] = 0xFFFFFFFF := by
    decide
  have hcrc0 : crc32 ((List.replicate (2 ^ 30) [157, 10, 217, 109]).flatten) = 0 := by
    rw [crc32, crcFold_flatten_replicate _ _ hfix, Nat.xor_self]
  have hbytes : ∀ b ∈ (List.replicate (2 ^ 30) [157, 10, 217, 109]).flatten, b < 256 := by
    intro b hb
    have hmem := mem_flatten_replicate hb
    simp only [List.mem_cons, List.not_mem_nil, or_false] at hmem
    rcases hmem with rfl | rfl | rfl | rfl <;> decide
  have hP0len : ((List.replicate (2 ^ 30) [157, 10, 217, 109]).flatten).length
      = 2 ^ 32 := by
    rw [length_flatten_replicate]
    decide
  have hval := create_valid .Onion 1
    ((List.replicate (2 ^ 30) [157, 10, 217, 109]).flatten) (by decide) hbytes
  have hhsz : (FixedHeader.create .Onion 1
      ((List.replicate (2 ^ 30) [157, 10, 217, 109]).flatten)).to_bytes.length
      = HEADER_SIZE := header_to_bytes_length _
  have hP1len : ((157 ^^^ 2 ^ 0) :: 10 :: 217 :: 109 ::
      (List.replicate (2 ^ 30 - 1) [157, 10, 217, 109]).flatten).length = 2 ^ 32 := by
    rw [List.length_cons, List.length_cons, List.length_cons, List.length_cons,
      length_flatten_replicate]
    decide
  have hdlen : ((FixedHeader.create .Onion 1
      ((List.replicate (2 ^ 30) [157, 10, 217, 109]).flatten)).to_bytes
      ++ ((157 ^^^ 2 ^ 0) :: 10 :: 217 :: 109 ::
          (List.replicate (2 ^ 30 - 1) [157, 10, 217, 109]).flatten)).length
      = 16 + 2 ^ 32 := by
    rw [List.length_append, header_to_bytes_length, hP1len]
  have hdecl : declaredPayloadLen ((FixedHeader.create .Onion 1
      ((List.replicate (2 ^ 30) [157, 10, 217, 109]).flatten)).to_bytes
      ++ ((157 ^^^ 2 ^ 0) :: 10 :: 217 :: 109 ::
          (List.replicate (2 ^ 30 - 1) [157, 10, 217, 109]).flatten)) = 0 := by
    rw [declaredPayloadLen, List.take_left' hhsz, parseHeader_to_bytes _ hval,
      create_payload_length, hP0len, Nat.mod_self]
  have hstored : storedChecksum ((FixedHeader.create .Onion 1
      ((List.replicate (2 ^ 30) [157, 10, 217, 109]).flatten)).to_bytes
      ++ ((157 ^^^ 2 ^ 0) :: 10 :: 217 :: 109 ::
          (List.replicate (2 ^ 30 - 1) [157, 10, 217, 109]).flatten)) = 0 := by
    rw [storedChecksum, List.take_left' hhsz, parseHeader_to_bytes _ hval,
      create_checksum, hcrc0]
  have hextract : extractedPayload ((FixedHeader.create .Onion 1
      ((List.replicate (2 ^ 30) [157, 10, 217, 109]).flatten)).to_bytes
      ++ ((157 ^^^ 2 ^ 0) :: 10 :: 217 :: 109 ::
          (List.replicate (2 ^ 30 - 1) [157, 10, 217, 109]).flatten)) = [] := by
    rw [extractedPayload, hdecl, List.take_zero]
  refine ⟨by rw [hsplit]; rfl, by decide, ?_⟩
  rw [new_header, from_bytes_cases _ (by rw [hdlen]; decide), hdecl,
    if_neg (by rw [hdlen]; decide), hextract, hstored, if_neg (by decide),
    List.take_left' (header_to_bytes_length _), parseHeader_to_bytes _ hval]

/-- C3 (amended): tamper detection — for every packet built by
`NetworkPacket::new` on a non-empty payload of fewer than `2 ^ 32` bytes,
flipping any single bit `k` of any payload byte (position `pre.length`, so
the buffer is the encoded header followed by the flipped payload) makes
`NetworkPacket::from_bytes` fail with `ChecksumMismatch`; it never
succeeds. -/
theorem c3_tamper_detection (mt : MessageType) (rid : Nat) (pre suf : List Nat)
    (b k : Nat) (hrid : rid < 2 ^ 32) (hb : b < 256) (hk : k < 8)
    (hpre : ∀ x ∈ pre, x < 256) (hsuf : ∀ x ∈ suf, x < 256)
    (hlen : (pre ++ b :: suf).length < 2 ^ 32) :
    NetworkPacket.from_bytes
        ((NetworkPacket.new mt rid (pre ++ b :: suf)).header.to_bytes
          ++ (pre ++ (b ^^^ 2 ^ k) :: suf))
      = .error (.ChecksumMismatch (crc32 (pre ++ b :: suf))
          (crc32 (pre ++ (b ^^^ 2 ^ k) :: suf))) := by
  have hbytes : ∀ x ∈ pre ++ b :: suf, x < 256 := by
    intro x hx
    rw [List.mem_append, List.mem_cons] at hx
    rcases hx with hx | hx | hx
    · exact hpre x hx
    · exact hx ▸ hb
    · exact hsuf x hx
  have hval := create_valid mt rid (pre ++ b :: suf) hrid hbytes
  have hhsz : (FixedHeader.create mt rid (pre ++ b :: suf)).to_bytes.length
      = HEADER_SIZE := header_to_bytes_length _
  have hlen2 : (pre ++ (b ^^^ 2 ^ k) :: suf).length = (pre ++ b :: suf).length := by
    rw [List.length_append, List.length_append, List.length_cons, List.length_cons]
  have hdlen : ((FixedHeader.create mt rid (pre ++ b :: suf)).to_bytes
      ++ (pre ++ (b ^^^ 2 ^ k) :: suf)).length = 16 + (pre ++ b :: suf).length := by
    rw [List.length_append, header_to_bytes_length, hlen2]
  have hdecl : declaredPayloadLen ((FixedHeader.create mt rid (pre ++ b :: suf)).to_bytes
      ++ (pre ++ (b ^^^ 2 ^ k) :: suf)) = (pre ++ b :: suf).length := by
    rw [declaredPayloadLen, List.take_left' hhsz, parseHeader_to_bytes _ hval,
      create_payload_length, Nat.mod_eq_of_lt hlen]
  have hstored : storedChecksum ((FixedHeader.create mt rid (pre ++ b :: suf)).to_bytes
      ++ (pre ++ (b ^^^ 2 ^ k) :: suf)) = crc32 (pre ++ b :: suf) := by
    rw [storedChecksum, List.take_left' hhsz, parseHeader_to_bytes _ hval, create_checksum]
  have hextract : extractedPayload ((FixedHeader.create mt rid (pre ++ b :: suf)).to_bytes
      ++ (pre ++ (b ^^^ 2 ^ k) :: suf)) = pre ++ (b ^^^ 2 ^ k) :: suf := by
    rw [extractedPayload, hdecl, List.drop_left' hhsz, ← hlen2, List.take_length]
  have hne : crc32 (pre ++ (b ^^^ 2 ^ k) :: suf) ≠ crc32 (pre ++ b :: suf) :=
    crc32_single_byte_ne pre suf
      (fun x hx => (hpre x hx).trans (by decide))
      (fun x hx => (hsuf x hx).trans (by decide))
      ((xor_two_pow_lt hb hk).trans (by decide))
      (hb.trans (by decide))
      (xor_two_pow_ne b k)
  rw [new_header, from_bytes_cases _ (by rw [hdlen]; omega), hdecl,
    if_neg (by rw [hdlen]; omega), hextract, hstored, if_pos hne]

/-- C3 witness: a concrete one-bit flip in the middle payload byte of a
three-byte payload is detected as a checksum mismatch. -/
theorem c3_witness :
    NetworkPacket.from_bytes
        ((NetworkPacket.new .Onion 1 ([5] ++ 7 :: [9])).header.to_bytes
          ++ ([5] ++ (7 ^^^ 2 ^ 0) :: [9]))
      = .error (.ChecksumMismatch (crc32 ([5] ++ 7 :: [9]))
          (crc32 ([5] ++ (7 ^^^ 2 ^ 0) :: [9]))) :=
  c3_tamper_detection .Onion 1 [5] [9] 7 0 (by decide) (by decide) (by decide)
    (by decide) (by decide) (by decide)

/-- C5: handshake decode error taxonomy — `HandshakePayload::from_bytes` fails
with `InvalidSize` iff the input is not exactly 136 bytes; on 136-byte input
it fails with `InvalidIdentityKey` iff the first 32 bytes are not a valid
compressed Edwards point, and otherwise succeeds; in particular no reachable
failure concerns the exchange-key bytes or the signature bytes
(`InvalidOnionKey`, `InvalidSignature` and `VerificationFailed` are never
returned, signature parsing being total in ed25519-dalek v2). -/
theorem c5_handshake_decode_taxonomy (bytes : List Nat) :
    (HandshakePayload.from_bytes bytes = .error (.InvalidSize 136 bytes.length)
      ↔ bytes.length ≠ 136)
    ∧ (bytes.length = 136 → ed25519ValidPoint (bytes.take 32) = false →
        HandshakePayload.from_bytes bytes = .error .InvalidIdentityKey)
    ∧ (bytes.length = 136 → ed25519ValidPoint (bytes.take 32) = true →
        HandshakePayload.from_bytes bytes
          = .ok ⟨bytes.take 32, (bytes.drop 32).take 32,
              beNum ((bytes.drop 64).take 8), bytes.drop 72⟩)
    ∧ (∀ e, HandshakePayload.from_bytes bytes = .error e →
        e ≠ .InvalidSignature ∧ e ≠ .InvalidOnionKey ∧ e ≠ .VerificationFailed) := by
  by_cases hsz : bytes.length = 136
  · by_cases hv : ed25519ValidPoint (bytes.take 32) = false
    · have hfb : HandshakePayload.from_bytes bytes = .error .InvalidIdentityKey := by
        rw [HandshakePayload.from_bytes]
        simp only [HANDSHAKE_PAYLOAD_SIZE]
        rw [if_neg (not_not_intro hsz), if_pos hv]
      refine ⟨⟨fun hc => ?_, fun hneq => absurd hsz hneq⟩, fun _ _ => hfb,
        fun _ hvt => ?_, fun e he => ?_⟩
      · rw [hfb] at hc
        exact HandshakeError.noConfusion (Except.error.inj hc)
      · rw [hvt] at hv
        exact Bool.noConfusion hv
      · rw [hfb] at he
        cases Except.error.inj he
        exact ⟨by decide, by decide, by decide⟩
    · have hfb : HandshakePayload.from_bytes bytes
          = .ok ⟨bytes.take 32, (bytes.drop 32).take 32,
              beNum ((bytes.drop 64).take 8), bytes.drop 72⟩ := by
        rw [HandshakePayload.from_bytes]
        simp only [HANDSHAKE_PAYLOAD_SIZE]
        rw [if_neg (not_not_intro hsz), if_neg hv]
      refine ⟨⟨fun hc => ?_, fun hneq => absurd hsz hneq⟩, fun _ hvf => ?_,
        fun _ _ => hfb, fun e he => ?_⟩
      · rw [hfb] at hc
        exact Except.noConfusion hc
      · exact absurd hvf hv
      · rw [hfb] at he
        exact Except.noConfusion he
  · have hfb : HandshakePayload.from_bytes bytes
        = .error (.InvalidSize 136 bytes.length) := by
      rw [HandshakePayload.from_bytes]
      simp only [HANDSHAKE_PAYLOAD_SIZE]
      rw [if_pos hsz]
    refine ⟨⟨fun _ => hsz, fun _ => hfb⟩, fun h136 _ => absurd h136 hsz,
      fun h136 _ => absurd h136 hsz, fun e he => ?_⟩
    rw [hfb] at he
    cases Except.error.inj he
    exact ⟨fun h => HandshakeError.noConfusion h, fun h => HandshakeError.noConfusion h,
      fun h => HandshakeError.noConfusion h⟩

/-- C5 witness: a 136-byte buffer whose identity key decodes (y = 1, the
neutral point) parses successfully; the taxonomy instantiated there. -/
theorem c5_witness :
    HandshakePayload.from_bytes ((1 :: List.replicate 31 0) ++ List.replicate 104 7)
      = .ok ⟨((1 :: List.replicate 31 0) ++ List.replicate 104 7).take 32,
          ((((1 :: List.replicate 31 0) ++ List.replicate 104 7)).drop 32).take 32,
          beNum (((((1 :: List.replicate 31 0) ++ List.replicate 104 7)).drop 64).take 8),
          (((1 :: List.replicate 31 0) ++ List.replicate 104 7)).drop 72⟩ :=
  (c5_handshake_decode_taxonomy
    ((1 :: List.replicate 31 0) ++ List.replicate 104 7)).2.2.1 (by decide) (by decide)

/-- C6: `ffi_create_session_key` called with a NULL private-key pointer (and
an otherwise valid call) panics — `raw_to_slice` turns NULL into an empty
slice and the `try_from(...).unwrap()` then aborts instead of returning the
typed failure code. -/
theorem c6_ffi_null_key_panics :
    ffi_create_session_key none (some (List.replicate 32 0)) true
      = .panic := rfl

/-- C9: session-key symmetry — with Diffie-Hellman modelled on the Curve25519
group (RFC 7748 semantics of x25519-dalek), both peers derive the same
32-byte session key: `create_session_key(a, pub b) = create_session_key(b,
pub a)`, since the shared point `clamp a • clamp b • G` is commutative in the
two scalars and the HKDF-SHA256 expansion is deterministic. -/
theorem c9_session_key_symmetry (a_priv b_priv : Nat) :
    create_session_key_spec a_priv (x25519PublicKeyPoint b_priv)
      = create_session_key_spec b_priv (x25519PublicKeyPoint a_priv) := by
  unfold create_session_key_spec x25519PublicKeyPoint montgomeryDH
  rw [smul_smul, smul_smul, Nat.mul_comm]

end FreedomCore
